import Mathlib

/-!
Verification of the kinematics2d library: a shallow embedding, over the
real numbers, of `src/kinematics2d/vector2d.py` and
`src/kinematics2d/kinematics.py`, followed by theorems settling the
specification's claims about them.
-/

noncomputable section

open Real

/-- Embedding of the Python class `Vector2D` (vector2d.py): a 2-dimensional
vector with float components, modelled with real components. -/
structure Vector2D where
  x : ℝ
  y : ℝ
deriving DecidableEq

namespace Vector2D

/-- `Vector2D.zeros()` (vector2d.py line 24-26). -/
def zeros : Vector2D := ⟨0, 0⟩

/-- `Vector2D.__add__` (vector2d.py line 47-48): componentwise addition. -/
def add (a b : Vector2D) : Vector2D := ⟨a.x + b.x, a.y + b.y⟩

/-- `Vector2D.__sub__` (vector2d.py line 53-54): componentwise subtraction. -/
def sub (a b : Vector2D) : Vector2D := ⟨a.x - b.x, a.y - b.y⟩

/-- `Vector2D.__neg__` (vector2d.py line 71-72): componentwise negation. -/
def neg (a : Vector2D) : Vector2D := ⟨-a.x, -a.y⟩

/-- `Vector2D.__mul__` (vector2d.py line 59-60): scaling by a scalar. -/
def mul (a : Vector2D) (s : ℝ) : Vector2D := ⟨a.x * s, a.y * s⟩

/-- `Vector2D.__truediv__` (vector2d.py line 62-63): componentwise division
by a scalar, with no guard against a zero divisor. -/
def truediv (a : Vector2D) (s : ℝ) : Vector2D := ⟨a.x / s, a.y / s⟩

/-- `Vector2D.magnitude` (vector2d.py line 80-82): the Euclidean norm
`np.linalg.norm([x, y])`. -/
def magnitude (a : Vector2D) : ℝ := Real.sqrt (a.x ^ 2 + a.y ^ 2)

/-- `Vector2D.dot` (vector2d.py line 95-96): the dot product. -/
def dot (a b : Vector2D) : ℝ := a.x * b.x + a.y * b.y

/-- `Vector2D.rotated` (vector2d.py line 98-105): multiplication by the
standard counter-clockwise 2x2 rotation matrix for `angle`. -/
def rotated (a : Vector2D) (angle : ℝ) : Vector2D :=
  ⟨Real.cos angle * a.x - Real.sin angle * a.y,
   Real.sin angle * a.x + Real.cos angle * a.y⟩

/-- `Vector2D.normalized` (vector2d.py line 107-112): divide by the
magnitude when it is nonzero, otherwise return `zeros()`. -/
def normalized (a : Vector2D) : Vector2D :=
  if a.magnitude ≠ 0 then a.truediv a.magnitude else zeros

end Vector2D

/-- Python's `round(c, 4)`: the cosine rounded to four decimal digits, as
used in `Vector2D.angle_from`.  Modelled with round-to-nearest on the
scaled value (the tie-breaking rule is irrelevant to the claims). -/
def round4 (c : ℝ) : ℝ := (round (c * 10000) : ℤ) / 10000

namespace Vector2D

/-- `Vector2D.angle_from` (vector2d.py line 88-93): returns `0.0` when
either vector has zero magnitude, otherwise `acos` of the cosine of the
angle rounded to 4 decimal digits. -/
def angle_from (a b : Vector2D) : ℝ :=
  if a.magnitude = 0 ∨ b.magnitude = 0 then 0
  else Real.arccos (round4 (b.dot a / (b.magnitude * a.magnitude)))

end Vector2D

/-- Embedding of the Python class `Kinematics` (kinematics.py): position,
orientation, linear velocity and angular rate of a rigid body. -/
structure Kinematics where
  position : Vector2D
  orientation : ℝ
  velocity : Vector2D
  rotation : ℝ

namespace Kinematics

/-- `Kinematics.zeros()` (kinematics.py line 46-48). -/
def zeros : Kinematics := ⟨Vector2D.zeros, 0, Vector2D.zeros, 0⟩

/-- `Kinematics.__add__` (kinematics.py line 91-98): frame composition. -/
def add (a b : Kinematics) : Kinematics :=
  ⟨a.position.add (b.position.rotated a.orientation),
   a.orientation + b.orientation,
   a.velocity.add (b.velocity.rotated a.orientation),
   a.rotation + b.rotation⟩

/-- `Kinematics.__sub__` (kinematics.py line 100-107): frame decomposition. -/
def sub (a b : Kinematics) : Kinematics :=
  ⟨(a.position.sub b.position).rotated (-b.orientation),
   a.orientation - b.orientation,
   (a.velocity.sub b.velocity).rotated (-b.orientation),
   a.rotation - b.rotation⟩

/-- `Kinematics.updated` (kinematics.py line 109-114): single-step forward
Euler motion update; the position delta is rotated by the orientation
change over the step. -/
def updated (k : Kinematics) (delta_time : ℝ) : Kinematics :=
  ⟨k.position.add ((k.velocity.mul delta_time).rotated (k.rotation * delta_time)),
   k.orientation + k.rotation * delta_time,
   k.velocity,
   k.rotation⟩

/-- `Kinematics.delta_position_to_stop` (kinematics.py line 116-121):
`velocity.normalized() * abs(velocity) ** 2 / (2.0 * max_linear_decel_magnitude)`. -/
def delta_position_to_stop (k : Kinematics) (max_linear_decel_magnitude : ℝ) :
    Vector2D :=
  (k.velocity.normalized.mul (k.velocity.magnitude ^ 2)).truediv
    (2 * max_linear_decel_magnitude)

/-- `Kinematics.delta_orientation_to_stop` (kinematics.py line 123-125):
`abs(rotation) ** 2 / (2.0 * max_angular_decel_magnitude)`, negated unless
`rotation > 0.0`. -/
def delta_orientation_to_stop (k : Kinematics)
    (max_angular_decel_magnitude : ℝ) : ℝ :=
  let value := |k.rotation| ^ 2 / (2 * max_angular_decel_magnitude)
  if k.rotation > 0 then value else -value

end Kinematics

/-! Helper lemmas about rotation. -/

/-- Rotating by zero is the identity. -/
theorem Vector2D.rotated_zero (a : Vector2D) : a.rotated 0 = a := by
  simp [Vector2D.rotated]

/-- Two successive rotations compose by adding the angles. -/
theorem Vector2D.rotated_rotated (a : Vector2D) (t s : ℝ) :
    (a.rotated t).rotated s = a.rotated (s + t) := by
  simp only [Vector2D.rotated, Real.cos_add, Real.sin_add, Vector2D.mk.injEq]
  constructor <;> ring

/-! Claims C2, C3, C10: the motion update and the composition identity. -/

/-- C2: `updated(dt)` sets orientation to `orientation + rotation * dt` and
position to `position + rotate(velocity * dt, rotation * dt)` — the position
delta is rotated by the orientation change over the step; at position
`(0,0)`, orientation `0`, velocity `(1,0)`, rotation `π/2`, `updated(1.0)`
yields orientation `π/2` and position `(0,1)`. -/
theorem updated_spec (k : Kinematics) (dt : ℝ) :
    (k.updated dt).orientation = k.orientation + k.rotation * dt ∧
    (k.updated dt).position =
      k.position.add ((k.velocity.mul dt).rotated (k.rotation * dt)) ∧
    Kinematics.updated ⟨⟨0, 0⟩, 0, ⟨1, 0⟩, Real.pi / 2⟩ 1 =
      ⟨⟨0, 1⟩, Real.pi / 2, ⟨1, 0⟩, Real.pi / 2⟩ := by
  refine ⟨rfl, rfl, ?_⟩
  simp [Kinematics.updated, Vector2D.mul, Vector2D.rotated, Vector2D.add]

/-- C3: `updated(dt)` carries velocity and rotation through unchanged. -/
theorem updated_preserves_velocity_rotation (k : Kinematics) (dt : ℝ) :
    (k.updated dt).velocity = k.velocity ∧
    (k.updated dt).rotation = k.rotation :=
  ⟨rfl, rfl⟩

/-- C10: `Kinematics.zeros()` is a two-sided identity for frame
composition. -/
theorem zeros_add_identity (k : Kinematics) :
    Kinematics.zeros.add k = k ∧ k.add Kinematics.zeros = k := by
  obtain ⟨⟨px, py⟩, o, ⟨vx, vy⟩, r⟩ := k
  constructor <;>
    simp [Kinematics.add, Kinematics.zeros, Vector2D.zeros, Vector2D.add,
      Vector2D.rotated]

/-! Claims C9 and C1: which round-trip pairing the operators satisfy. -/

/-- C9: with the composing operand `a` as the fixed frame, the round-trips
hold exactly: `(a + b) - a = b` and `a + (b - a) = b` in all four fields. -/
theorem inverse_pairing_fixed_left (a b : Kinematics) :
    (a.add b).sub a = b ∧ a.add (b.sub a) = b := by
  obtain ⟨⟨px, py⟩, o, ⟨vx, vy⟩, r⟩ := b
  have h := Real.sin_sq_add_cos_sq a.orientation
  constructor <;>
    simp only [Kinematics.add, Kinematics.sub, Kinematics.mk.injEq,
      Vector2D.add, Vector2D.sub, Vector2D.rotated, Vector2D.mk.injEq,
      Real.cos_neg, Real.sin_neg]
  · exact ⟨⟨by linear_combination px * h, by linear_combination py * h⟩,
      by ring, ⟨by linear_combination vx * h, by linear_combination vy * h⟩,
      by ring⟩
  · exact ⟨⟨by linear_combination (px - a.position.x) * h,
        by linear_combination (py - a.position.y) * h⟩,
      by ring,
      ⟨by linear_combination (vx - a.velocity.x) * h,
        by linear_combination (vy - a.velocity.y) * h⟩,
      by ring⟩

/-- C1 counterexample: with `b` as the fixed frame the round-trip fails:
for `a` at position `(1,0)` with orientation `0` and `b` with orientation
`π`, `(a + b) - b` has position `(-1,0)`, not `a`'s position `(1,0)`. -/
theorem roundtrip_fixed_right_counterexample :
    ¬ ((Kinematics.add ⟨⟨1, 0⟩, 0, ⟨0, 0⟩, 0⟩
          ⟨⟨0, 0⟩, Real.pi, ⟨0, 0⟩, 0⟩).sub
        ⟨⟨0, 0⟩, Real.pi, ⟨0, 0⟩, 0⟩ = ⟨⟨1, 0⟩, 0, ⟨0, 0⟩, 0⟩) := by
  intro hEq
  have hx := congrArg (fun k => k.position.x) hEq
  simp only [Kinematics.add, Kinematics.sub, Vector2D.add, Vector2D.sub,
    Vector2D.rotated, Real.cos_neg, Real.sin_neg, Real.cos_pi, Real.sin_pi,
    Real.cos_zero, Real.sin_zero] at hx
  norm_num at hx

/-- C1 amended: with `b` as the fixed frame, `(a + b) - b` and `(a - b) + b`
agree with `a` in the orientation and rotation fields for all `a`, `b`, but
in the position and velocity fields only under extra conditions, e.g. when
both orientations are zero (the unconditional inverse pairing instead fixes
`a`, the composing operand). -/
theorem roundtrip_fixed_right_amended (a b : Kinematics) :
    ((a.add b).sub b).orientation = a.orientation ∧
    ((a.add b).sub b).rotation = a.rotation ∧
    ((a.sub b).add b).orientation = a.orientation ∧
    ((a.sub b).add b).rotation = a.rotation ∧
    (a.orientation = 0 → b.orientation = 0 →
      (a.add b).sub b = a ∧ (a.sub b).add b = a) := by
  obtain ⟨⟨px, py⟩, o, ⟨vx, vy⟩, r⟩ := a
  obtain ⟨⟨qx, qy⟩, p, ⟨wx, wy⟩, s⟩ := b
  refine ⟨?_, ?_, ?_, ?_, ?_⟩
  · simp [Kinematics.add, Kinematics.sub]
  · simp [Kinematics.add, Kinematics.sub]
  · simp [Kinematics.add, Kinematics.sub]
  · simp [Kinematics.add, Kinematics.sub]
  · intro ho hp
    subst ho; subst hp
    constructor <;>
    · simp only [Kinematics.add, Kinematics.sub, Vector2D.add, Vector2D.sub,
        Vector2D.rotated, sub_self, Real.cos_zero, Real.sin_zero, neg_zero,
        Kinematics.mk.injEq, Vector2D.mk.injEq]
      refine ⟨⟨by ring, by ring⟩, by ring, ⟨by ring, by ring⟩, by ring⟩

/-- C1 amended witness: the round-trips at a concrete pair with both
orientations zero. -/
theorem roundtrip_fixed_right_amended_witness :
    (Kinematics.add ⟨⟨1, 2⟩, 0, ⟨3, 4⟩, 5⟩ ⟨⟨6, 7⟩, 0, ⟨8, 9⟩, 10⟩).sub
        ⟨⟨6, 7⟩, 0, ⟨8, 9⟩, 10⟩ = ⟨⟨1, 2⟩, 0, ⟨3, 4⟩, 5⟩ ∧
    (Kinematics.sub ⟨⟨1, 2⟩, 0, ⟨3, 4⟩, 5⟩ ⟨⟨6, 7⟩, 0, ⟨8, 9⟩, 10⟩).add
        ⟨⟨6, 7⟩, 0, ⟨8, 9⟩, 10⟩ = ⟨⟨1, 2⟩, 0, ⟨3, 4⟩, 5⟩ :=
  (roundtrip_fixed_right_amended ⟨⟨1, 2⟩, 0, ⟨3, 4⟩, 5⟩
    ⟨⟨6, 7⟩, 0, ⟨8, 9⟩, 10⟩).2.2.2.2 rfl rfl

/-! Helper lemmas about the magnitude. -/

/-- The magnitude is nonnegative. -/
theorem Vector2D.magnitude_nonneg (a : Vector2D) : 0 ≤ a.magnitude :=
  Real.sqrt_nonneg _

/-- The magnitude squared recovers the sum of squared components. -/
theorem Vector2D.mul_self_magnitude (a : Vector2D) :
    a.magnitude * a.magnitude = a.x ^ 2 + a.y ^ 2 :=
  Real.mul_self_sqrt (by positivity)

/-- The magnitude vanishes exactly on the zero vector. -/
theorem Vector2D.magnitude_eq_zero_iff (a : Vector2D) :
    a.magnitude = 0 ↔ a = Vector2D.zeros := by
  obtain ⟨ax, ay⟩ := a
  rw [Vector2D.magnitude, Real.sqrt_eq_zero (by positivity)]
  constructor
  · intro h
    have hx : ax = 0 := by nlinarith [sq_nonneg ax, sq_nonneg ay]
    have hy : ay = 0 := by nlinarith [sq_nonneg ax, sq_nonneg ay]
    simp [Vector2D.zeros, hx, hy]
  · intro h
    obtain ⟨hx, hy⟩ := Vector2D.mk.injEq .. |>.mp h
    simp [hx, hy]

/-- Scaling a vector scales its magnitude by the absolute scalar. -/
theorem Vector2D.magnitude_mul (a : Vector2D) (s : ℝ) :
    (a.mul s).magnitude = a.magnitude * |s| := by
  rw [Vector2D.mul, Vector2D.magnitude, Vector2D.magnitude]
  have h : (a.x * s) ^ 2 + (a.y * s) ^ 2 = (a.x ^ 2 + a.y ^ 2) * s ^ 2 := by
    ring
  rw [h, Real.sqrt_mul (by positivity), Real.sqrt_sq_eq_abs]

/-- C7: `normalized()` of a vector of nonzero magnitude has magnitude one
and is the vector scaled by the reciprocal of its magnitude (the same
direction); `normalized()` of a vector of zero magnitude is `zeros()`. -/
theorem normalized_spec (v : Vector2D) :
    (v.magnitude ≠ 0 →
      (v.normalized).magnitude = 1 ∧
      v.normalized = v.mul (1 / v.magnitude)) ∧
    (v.magnitude = 0 → v.normalized = Vector2D.zeros) := by
  constructor
  · intro h
    have hpos : 0 < v.magnitude := lt_of_le_of_ne (Vector2D.magnitude_nonneg v)
      (Ne.symm h)
    have heq : v.normalized = v.mul (1 / v.magnitude) := by
      rw [Vector2D.normalized, if_pos h, Vector2D.truediv, Vector2D.mul,
        Vector2D.mk.injEq]
      constructor <;> ring
    refine ⟨?_, heq⟩
    rw [heq, Vector2D.magnitude_mul, abs_of_pos (by positivity)]
    field_simp
  · intro h
    rw [Vector2D.normalized, if_neg (by simpa using h)]

/-- C7 witness: the vector `(3,4)` normalizes to a unit vector along
itself, and the zero vector normalizes to `zeros()`. -/
theorem normalized_spec_witness :
    (Vector2D.normalized ⟨3, 4⟩).magnitude = 1 ∧
    Vector2D.normalized ⟨3, 4⟩ =
      Vector2D.mul ⟨3, 4⟩ (1 / Vector2D.magnitude ⟨3, 4⟩) ∧
    Vector2D.normalized ⟨0, 0⟩ = Vector2D.zeros := by
  have h34 : Vector2D.magnitude ⟨3, 4⟩ ≠ 0 := by
    rw [Vector2D.magnitude, Real.sqrt_ne_zero (by norm_num)]
    norm_num
  have h0 : Vector2D.magnitude ⟨0, 0⟩ = 0 := by
    simp [Vector2D.magnitude]
  exact ⟨((normalized_spec ⟨3, 4⟩).1 h34).1, ((normalized_spec ⟨3, 4⟩).1 h34).2,
    (normalized_spec ⟨0, 0⟩).2 h0⟩

/-- C4: `delta_position_to_stop(d)` for `d > 0` is the velocity scaled by
the nonnegative factor `|velocity| / (2d)` — the same direction as the
velocity — and its magnitude is `|velocity|^2 / (2d)`. -/
theorem delta_position_to_stop_spec (k : Kinematics) (d : ℝ) (hd : 0 < d) :
    k.delta_position_to_stop d =
      k.velocity.mul (k.velocity.magnitude / (2 * d)) ∧
    0 ≤ k.velocity.magnitude / (2 * d) ∧
    (k.delta_position_to_stop d).magnitude =
      k.velocity.magnitude ^ 2 / (2 * d) := by
  have hm := Vector2D.magnitude_nonneg k.velocity
  have hc : 0 ≤ k.velocity.magnitude / (2 * d) := by positivity
  have heq : k.delta_position_to_stop d =
      k.velocity.mul (k.velocity.magnitude / (2 * d)) := by
    by_cases h : k.velocity.magnitude = 0
    · have hz := (Vector2D.magnitude_eq_zero_iff _).mp h
      simp [Kinematics.delta_position_to_stop, hz, Vector2D.normalized,
        Vector2D.zeros, Vector2D.magnitude, Vector2D.truediv, Vector2D.mul]
    · rw [Kinematics.delta_position_to_stop, Vector2D.normalized, if_pos h,
        Vector2D.truediv, Vector2D.mul, Vector2D.mul, Vector2D.truediv,
        Vector2D.mk.injEq]
      constructor <;> · field_simp; ring
  refine ⟨heq, hc, ?_⟩
  rw [heq, Vector2D.magnitude_mul, abs_of_nonneg hc]
  ring

/-- C4 witness: velocity `(3,4)` (magnitude 5) with deceleration magnitude
`1.0` gives a stop displacement of magnitude `12.5` along `(3,4)`. -/
theorem delta_position_to_stop_spec_witness :
    Kinematics.delta_position_to_stop ⟨⟨0, 0⟩, 0, ⟨3, 4⟩, 0⟩ 1 =
      Vector2D.mul ⟨3, 4⟩ (5 / 2) ∧
    (Kinematics.delta_position_to_stop ⟨⟨0, 0⟩, 0, ⟨3, 4⟩, 0⟩ 1).magnitude =
      25 / 2 := by
  have hmag : Vector2D.magnitude ⟨3, 4⟩ = 5 := by
    rw [Vector2D.magnitude, show (3 : ℝ) ^ 2 + 4 ^ 2 = 5 ^ 2 by norm_num]
    exact Real.sqrt_sq (by norm_num)
  have h := delta_position_to_stop_spec ⟨⟨0, 0⟩, 0, ⟨3, 4⟩, 0⟩ 1 one_pos
  constructor
  · rw [h.1]
    norm_num [hmag]
  · rw [h.2.2]
    norm_num [hmag]

/-- C5: `delta_orientation_to_stop(d)` for `d > 0` is `rotation^2 / (2d)`
with the sign of the rotation: positive for positive rotation, negated for
negative rotation, and zero for zero rotation. -/
theorem delta_orientation_to_stop_spec (k : Kinematics) (d : ℝ)
    (_hd : 0 < d) :
    (0 < k.rotation →
      k.delta_orientation_to_stop d = k.rotation ^ 2 / (2 * d)) ∧
    (k.rotation < 0 →
      k.delta_orientation_to_stop d = -(k.rotation ^ 2 / (2 * d))) ∧
    (k.rotation = 0 → k.delta_orientation_to_stop d = 0) := by
  refine ⟨fun h => ?_, fun h => ?_, fun h => ?_⟩
  · simp [Kinematics.delta_orientation_to_stop, h, sq_abs]
  · simp [Kinematics.delta_orientation_to_stop, asymm h, sq_abs]
  · simp [Kinematics.delta_orientation_to_stop, h]

/-- C5 witness: rotation `3` and rotation `-3` with deceleration magnitude
`2` give `9/4` and `-9/4` respectively. -/
theorem delta_orientation_to_stop_spec_witness :
    Kinematics.delta_orientation_to_stop ⟨⟨0, 0⟩, 0, ⟨0, 0⟩, 3⟩ 2 =
      3 ^ 2 / (2 * 2) ∧
    Kinematics.delta_orientation_to_stop ⟨⟨0, 0⟩, 0, ⟨0, 0⟩, -3⟩ 2 =
      -((-3 : ℝ) ^ 2 / (2 * 2)) := by
  constructor
  · exact (delta_orientation_to_stop_spec ⟨⟨0, 0⟩, 0, ⟨0, 0⟩, 3⟩ 2
      (by norm_num)).1 (by norm_num)
  · exact (delta_orientation_to_stop_spec ⟨⟨0, 0⟩, 0, ⟨0, 0⟩, -3⟩ 2
      (by norm_num)).2.1 (by norm_num)

/-! Helper lemmas for the rounded cosine. -/

/-- Rounding one to four decimal digits gives one. -/
theorem round4_one : round4 1 = 1 := by
  rw [round4, one_mul]
  norm_num [round_eq]

/-- Rounding minus one to four decimal digits gives minus one. -/
theorem round4_neg_one : round4 (-1) = -1 := by
  rw [round4]
  norm_num [round_eq]

/-- C6: `angle_from` always lies in `[0, π]`; it returns `0` when either
vector has zero magnitude, and otherwise is `acos` of the cosine rounded to
four decimal digits; a nonzero vector has angle `0` from itself and angle
`π` from its negation. -/
theorem angle_from_spec (v w : Vector2D) :
    0 ≤ v.angle_from w ∧ v.angle_from w ≤ Real.pi ∧
    (v.magnitude = 0 ∨ w.magnitude = 0 → v.angle_from w = 0) ∧
    (¬(v.magnitude = 0 ∨ w.magnitude = 0) →
      v.angle_from w =
        Real.arccos (round4 (w.dot v / (w.magnitude * v.magnitude)))) ∧
    (v.magnitude ≠ 0 → v.angle_from v = 0 ∧ v.angle_from v.neg = Real.pi) := by
  have hrange : 0 ≤ v.angle_from w ∧ v.angle_from w ≤ Real.pi := by
    rw [Vector2D.angle_from]
    split
    · exact ⟨le_refl 0, Real.pi_pos.le⟩
    · exact ⟨Real.arccos_nonneg _, Real.arccos_le_pi _⟩
  refine ⟨hrange.1, hrange.2, fun h => ?_, fun h => ?_, fun h => ?_⟩
  · rw [Vector2D.angle_from, if_pos h]
  · rw [Vector2D.angle_from, if_neg h]
  · have hs : v.x ^ 2 + v.y ^ 2 ≠ 0 := fun h0 =>
      h (by rw [Vector2D.magnitude, h0, Real.sqrt_zero])
    constructor
    · rw [Vector2D.angle_from, if_neg (by simp [h])]
      have hdot : v.dot v = v.x ^ 2 + v.y ^ 2 := by
        rw [Vector2D.dot]; ring
      rw [hdot, Vector2D.mul_self_magnitude, div_self hs, round4_one,
        Real.arccos_one]
    · have hmneg : (v.neg).magnitude = v.magnitude := by
        rw [Vector2D.neg, Vector2D.magnitude, Vector2D.magnitude]
        ring_nf
      rw [Vector2D.angle_from, if_neg (by simp [h, hmneg])]
      have hdot : (v.neg).dot v = -(v.x ^ 2 + v.y ^ 2) := by
        rw [Vector2D.neg, Vector2D.dot]; ring
      rw [hdot, hmneg, Vector2D.mul_self_magnitude, neg_div, div_self hs,
        round4_neg_one, Real.arccos_neg_one]

/-- C6 witness: the unit vector `(1,0)` has angle `0` from itself and angle
`π` from `(-1,0)`, and the zero vector yields angle `0`. -/
theorem angle_from_spec_witness :
    Vector2D.angle_from ⟨1, 0⟩ ⟨1, 0⟩ = 0 ∧
    Vector2D.angle_from ⟨1, 0⟩ (Vector2D.neg ⟨1, 0⟩) = Real.pi ∧
    Vector2D.angle_from ⟨0, 0⟩ ⟨1, 0⟩ = 0 := by
  have h1 : Vector2D.magnitude ⟨1, 0⟩ ≠ 0 := by
    rw [Vector2D.magnitude, Real.sqrt_ne_zero (by norm_num)]
    norm_num
  have h0 : Vector2D.magnitude ⟨0, 0⟩ = 0 := by
    simp [Vector2D.magnitude]
  exact ⟨((angle_from_spec ⟨1, 0⟩ ⟨1, 0⟩).2.2.2.2 h1).1,
    ((angle_from_spec ⟨1, 0⟩ ⟨1, 0⟩).2.2.2.2 h1).2,
    (angle_from_spec ⟨0, 0⟩ ⟨1, 0⟩).2.2.1 (Or.inl h0)⟩

/-! Claim C8: scalar division is unguarded. -/

/-- Modelled from the spec: the value produced by the platform's IEEE-754
float division used in `Vector2D.__truediv__` via numpy, which is not part
of src/: a finite quotient for a nonzero divisor, and a signed infinity or
NaN — never a raised error — for a zero divisor. -/
inductive FpVal where
  | finite (val : ℝ)
  | posInf
  | negInf
  | nan

/-- Modelled from the spec: one component of the platform's unguarded float
division `x / s`. -/
def fdiv (x s : ℝ) : FpVal :=
  if s ≠ 0 then .finite (x / s)
  else if 0 < x then .posInf
  else if x < 0 then .negInf
  else .nan

/-- A non-finite float value: an infinity or NaN. -/
def FpVal.isNonFinite : FpVal → Prop
  | .finite _ => False
  | .posInf => True
  | .negInf => True
  | .nan => True

/-- Modelled from the spec: `Vector2D.__truediv__` (vector2d.py line
62-63) at the platform float level: componentwise unguarded division. -/
def Vector2D.truedivFp (a : Vector2D) (s : ℝ) : FpVal × FpVal :=
  (fdiv a.x s, fdiv a.y s)

/-- C8: dividing a vector by a scalar never signals an error: for a
nonzero scalar it is the componentwise quotient, and for the zero scalar
it yields non-finite (infinity or NaN) components rather than raising. -/
theorem truediv_unguarded (v : Vector2D) (s : ℝ) :
    (s ≠ 0 →
      v.truedivFp s = (FpVal.finite (v.x / s), FpVal.finite (v.y / s)) ∧
      v.truediv s = ⟨v.x / s, v.y / s⟩) ∧
    (s = 0 →
      (v.truedivFp s).1.isNonFinite ∧ (v.truedivFp s).2.isNonFinite) := by
  constructor
  · intro h
    constructor
    · rw [Vector2D.truedivFp, fdiv, if_pos h, fdiv, if_pos h]
    · rfl
  · intro h
    subst h
    constructor <;>
    · rw [Vector2D.truedivFp]
      simp only [fdiv, ne_eq, not_true_eq_false, if_false, ite_not]
      split
      · exact trivial
      · split <;> exact trivial

/-- C8 witness: dividing `(1,-2)` by zero yields non-finite components,
and dividing it by `2` yields the finite quotients. -/
theorem truediv_unguarded_witness :
    ((Vector2D.truedivFp ⟨1, -2⟩ 0).1.isNonFinite ∧
      (Vector2D.truedivFp ⟨1, -2⟩ 0).2.isNonFinite) ∧
    Vector2D.truedivFp ⟨1, -2⟩ 2 =
      (FpVal.finite ((1 : ℝ) / 2), FpVal.finite ((-2 : ℝ) / 2)) :=
  ⟨(truediv_unguarded ⟨1, -2⟩ 0).2 rfl,
    ((truediv_unguarded ⟨1, -2⟩ 2).1 (by norm_num)).1⟩
